import Mathlib

/-!
Verification development for the UTHOPIA SSH framework
(`src/uthopiassh.py`): a shallow embedding of its connection pool
(`SSHConnectionPool`), command executor and parallel dispatcher
(`AdvancedSSHAutomation.execute_command` / `execute_parallel`) and tunnel
worker (`SSHTunnel.create_tunnel`), together with theorems settling the
specification's claims about them.

Modelling conventions:
* A paramiko `SSHClient` object is modelled by a session identifier
  (`Nat`); reference equality of pooled handles is equality of session
  identifiers, with freshness guaranteed by a counter in the pool state.
* The Python dict `connections` is an association list of
  `(key, session)` pairs; insertion of a fresh key appends, `del`
  removes the (unique) entry.
* External, fallible effects (`transport.is_active()`, `ssh.connect`,
  `exec_command`, `open_channel`) are oracles passed as parameters:
  a liveness function `Nat → Bool`, an `Except String Unit` connect
  outcome, a per-submission `ExecOutcome`, and a per-accepted-connection
  channel outcome.  Raised Python exceptions are `.error`/`.exn` values.
* The pool's `threading.Lock` serializes `get_connection`; calls are
  therefore modelled as atomic sequential state transitions.
* Wall-clock durations (`time.time()` differences, a Python float) are
  abstracted to an environment-supplied `Nat`; no claim depends on the
  numeric value of `execution_time`.
* `ThreadPoolExecutor`/`as_completed` yields results in nondeterministic
  completion order; dispatcher theorems therefore quantify over any
  permutation of the submission-order result list produced by the model.
-/

namespace UthopiaSSH

/-- Python truthiness of an optional string (`if host.key_filename:`):
`None` and the empty string are falsy. -/
def pyTruthy : Option String → Bool
  | none => false
  | some s => s != ""

/-- The `SSHHost` dataclass: one remote endpoint and how to authenticate. -/
structure SSHHost where
  hostname : String
  username : String
  password : Option String := none
  key_filename : Option String := none
  port : Nat := 22
  timeout : Nat := 30
  tags : List String := []
deriving DecidableEq

/-- The `TaskResult` dataclass produced by `execute_command`. -/
structure TaskResult where
  host : String
  command : String
  stdout : String
  stderr : String
  exit_code : Int
  execution_time : Nat
  success : Bool
  error : Option String := none
deriving DecidableEq

/-- Pooling key: `f"{host.username}@{host.hostname}:{host.port}"`. -/
def host_key (h : SSHHost) : String :=
  h.username ++ "@" ++ h.hostname ++ ":" ++ toString h.port

/-- Dict lookup on the association-list model of `self.connections`. -/
def dictGet : List (String × Nat) → String → Option Nat
  | [], _ => none
  | (k, v) :: rest, key => if k = key then some v else dictGet rest key

/-- Model of `del self.connections[key]`: drop the first entry with that key. -/
def dictRemove : List (String × Nat) → String → List (String × Nat)
  | [], _ => []
  | (k, v) :: rest, key => if k = key then rest else (k, v) :: dictRemove rest key

/-- State of `SSHConnectionPool`: the `max_connections` field stored by
`__init__`, the key→session dict, and a freshness counter modelling
allocation of new `paramiko.SSHClient` objects. -/
structure PoolState where
  max_connections : Nat
  connections : List (String × Nat)
  nextId : Nat
deriving DecidableEq

/-- The arguments of one `ssh.connect(...)` call, as made by the code.
A `none` field records an argument that was not passed (so the library
default applies). -/
structure ConnectCall where
  hostname : String
  port : Nat
  username : String
  password : Option String
  key_filename : Option String
  timeout : Option Nat
deriving DecidableEq

/-- The connect call issued by `SSHConnectionPool.get_connection`:
the `key_filename` branch is taken when `host.key_filename` is truthy,
otherwise the `password` branch; both pass `timeout=host.timeout`. -/
def poolConnectCall (h : SSHHost) : ConnectCall :=
  if pyTruthy h.key_filename then
    { hostname := h.hostname, port := h.port, username := h.username,
      password := none, key_filename := h.key_filename, timeout := some h.timeout }
  else
    { hostname := h.hostname, port := h.port, username := h.username,
      password := h.password, key_filename := none, timeout := some h.timeout }

/-- The connect call issued by the tunnel worker inside
`SSHTunnel.create_tunnel`: it passes both `password` and `key_filename`
and does NOT pass a `timeout` argument. -/
def tunnelConnectCall (h : SSHHost) : ConnectCall :=
  { hostname := h.hostname, port := h.port, username := h.username,
    password := h.password, key_filename := h.key_filename, timeout := none }

/-- Outcome of one `get_connection` call: the returned session or the
re-raised exception. -/
inductive AcquireResult where
  | ok (session : Nat)
  | err (msg : String)
deriving DecidableEq

/-- Full observable effect of one `get_connection` call: result, new pool
state, the `ssh.connect` call made (if the code reached it), and the
sessions on which `.close()` was invoked during the call. -/
structure AcquireOutcome where
  result : AcquireResult
  pool : PoolState
  call : Option ConnectCall
  closedCalls : List Nat
deriving DecidableEq

/-- The creation path of `get_connection` (lines 97-124): build a client,
attempt `ssh.connect`; on success insert into the dict and return, on
exception log and re-raise without inserting. -/
def attemptConnect (st : PoolState) (h : SSHHost)
    (connectResult : Except String Unit) : AcquireOutcome :=
  match connectResult with
  | .ok _ =>
      { result := .ok st.nextId,
        pool := { st with
                  connections := st.connections ++ [(host_key h, st.nextId)],
                  nextId := st.nextId + 1 },
        call := some (poolConnectCall h),
        closedCalls := [] }
  | .error e =>
      { result := .err e,
        pool := st,
        call := some (poolConnectCall h),
        closedCalls := [] }

/-- Model of `SSHConnectionPool.get_connection` (lines 84-124), one atomic call
under `self.lock`.  `isActive s` models
`conn.get_transport() and conn.get_transport().is_active()` for pooled
session `s`; `connectResult` models the outcome of `ssh.connect`. -/
def get_connection (st : PoolState) (h : SSHHost) (isActive : Nat → Bool)
    (connectResult : Except String Unit) : AcquireOutcome :=
  let key := host_key h
  match dictGet st.connections key with
  | some conn =>
      if isActive conn then
        { result := .ok conn, pool := st, call := none, closedCalls := [] }
      else
        attemptConnect { st with connections := dictRemove st.connections key }
          h connectResult
  | none => attemptConnect st h connectResult

/-- Model of `SSHConnectionPool.close_all`: closes every pooled session (errors
swallowed) and clears the dict.  Returned second component: the sessions
on which `.close()` was invoked. -/
def close_all (st : PoolState) : PoolState × List Nat :=
  ({ st with connections := [] }, st.connections.map Prod.snd)

/-- Pool well-formedness: dict keys are unique, pooled session ids are
pairwise distinct (reference identity), and every pooled id was allocated
below the freshness counter. -/
def PoolWF (st : PoolState) : Prop :=
  (st.connections.map Prod.fst).Nodup ∧
  (st.connections.map Prod.snd).Nodup ∧
  ∀ p ∈ st.connections, p.2 < st.nextId

/-- Outcome of the body of `execute_command`'s `try` block: either the
command ran to completion with captured streams and a remote exit
status, or some step (connection acquisition, channel, decode) raised
an exception with message `msg`. -/
inductive ExecOutcome where
  | ran (stdout stderr : String) (exit_code : Int)
  | exn (msg : String)
deriving DecidableEq

/-- Model of `AdvancedSSHAutomation.execute_command` (lines 230-270): on a normal
run, the real exit status, `success = (exit_code == 0)` and no error; on
any exception, empty streams, exit code `-1`, `success = false` and the
exception text in `error`.  `elapsed` abstracts the wall-clock
measurement. -/
def execute_command (h : SSHHost) (command : String) (outcome : ExecOutcome)
    (elapsed : Nat) : TaskResult :=
  match outcome with
  | .ran out err code =>
      { host := h.hostname, command := command, stdout := out, stderr := err,
        exit_code := code, execution_time := elapsed,
        success := code == 0, error := none }
  | .exn msg =>
      { host := h.hostname, command := command, stdout := "", stderr := "",
        exit_code := -1, execution_time := elapsed,
        success := false, error := some msg }

/-- The submission list of `execute_parallel` (lines 289-292):
`self.hosts[host] for host in hosts if host in self.hosts`, one entry
per occurrence of an inventory-known label, paired with its label. -/
def presentPairs (inv : String → Option SSHHost) (hosts : List String) :
    List (String × SSHHost) :=
  hosts.filterMap (fun l => (inv l).map (fun h => (l, h)))

/-- Run the submitted units of work in submission order; the `i`-th
submission observes `outcome i` / `elapsed i`. -/
def runPairs (command : String) (outcome : Nat → ExecOutcome)
    (elapsed : Nat → Nat) : Nat → List (String × SSHHost) → List TaskResult
  | _, [] => []
  | i, p :: ps =>
      execute_command p.2 command (outcome i) (elapsed i) ::
        runPairs command outcome elapsed (i + 1) ps

/-- Model of `AdvancedSSHAutomation.execute_parallel` (lines 272-309), in
submission order.  `as_completed` delivers these same results in an
arbitrary permutation, so theorems about the dispatcher quantify over
any list `res` with `res.Perm (execute_parallel ...)`.  `inv` models the
`self.hosts` inventory dict. -/
def execute_parallel (inv : String → Option SSHHost) (hosts : List String)
    (command : String) (outcome : Nat → ExecOutcome) (elapsed : Nat → Nat) :
    List TaskResult :=
  runPairs command outcome elapsed 0 (presentPairs inv hosts)

/-- Partial indexing `nth? l i`: the `i`-th element of `l`, if any. -/
def nth? {α : Type} : List α → Nat → Option α
  | [], _ => none
  | a :: _, 0 => some a
  | _ :: l, n + 1 => nth? l n

/-- One pass of the tunnel worker's `while True` accept loop over a
script of per-accepted-connection `open_channel` outcomes.  Returns
(relay pairs spawned, logged error if the loop died, still listening). -/
def tunnelLoop : Nat → List (Except String Unit) → Nat × Option String × Bool
  | n, [] => (n, none, true)
  | n, .ok _ :: rest => tunnelLoop (n + 1) rest
  | n, .error e :: _ => (n, some e, false)

/-- Observable trace of one `tunnel_worker` thread (nested in
`SSHTunnel.create_tunnel`, lines 147-183). -/
structure TunnelTrace where
  connectCall : ConnectCall
  relaysSpawned : Nat
  clientClosedByWorker : List Nat
  loggedError : Option String
  sshClosed : Bool
  listening : Bool
deriving DecidableEq

/-- The `tunnel_worker` closure of `SSHTunnel.create_tunnel`
(lines 147-183).  A single `try` wraps `ssh.connect`, the listener
setup and the whole `while True` accept loop; the `except` logs any
exception and the `finally` closes the SSH client.  `chans` scripts the
`transport.open_channel` outcome for each successively accepted local
connection; a finite all-ok script leaves the worker blocked in
`accept()` (still listening).  `clientClosedByWorker` records accepted
client sockets the worker itself closed: the worker body contains no
`client_socket.close()` call, so it is always empty (relay threads
spawned for successfully opened channels close their own two endpoints
in `forward_data`, modelled separately below). -/
def tunnel_worker (h : SSHHost) (connectResult : Except String Unit)
    (chans : List (Except String Unit)) : TunnelTrace :=
  match connectResult with
  | .error e =>
      { connectCall := tunnelConnectCall h, relaysSpawned := 0,
        clientClosedByWorker := [], loggedError := some e,
        sshClosed := true, listening := false }
  | .ok _ =>
      let r := tunnelLoop 0 chans
      { connectCall := tunnelConnectCall h, relaysSpawned := r.1,
        clientClosedByWorker := [], loggedError := r.2.1,
        sshClosed := r.2.1.isSome, listening := r.2.2 }

/-- Observable outcome of one iteration of a relay loop in
`SSHTunnel._handle_tunnel_data.forward_data` (lines 191-202): either
`source.recv(4096)` returned `data` (empty data is falsy, so the loop
breaks; otherwise it is sent to the destination), or the iteration
raised (a recv or send failure), which the bare `except` swallows. -/
inductive RecvEvent where
  | recv (data : String)
  | exn (msg : String)
deriving DecidableEq

/-- Final state of one direction of a relay pair: the chunks it copied
across, and whether its `finally` closed the source and the
destination. -/
structure RelayTrace where
  forwarded : List String
  sourceClosed : Bool
  destClosed : Bool
deriving DecidableEq

/-- Model of `forward_data` (lines 191-202): copy chunks until a falsy
read (peer closed) or an exception, then close BOTH endpoints in the
`finally`.  An exhausted script leaves the loop blocked in `recv`
(closed flags false), which is possible only while the transport under
the channel is open: once `ssh.close()` closes the transport, a channel
read cannot block forever — it returns empty data or raises — so every
relay over a closed transport runs a script that reaches such a
terminator. -/
def forward_data : List RecvEvent → RelayTrace
  | [] => { forwarded := [], sourceClosed := false, destClosed := false }
  | .recv d :: rest =>
      if d = "" then { forwarded := [], sourceClosed := true, destClosed := true }
      else
        let r := forward_data rest
        { forwarded := d :: r.forwarded, sourceClosed := r.sourceClosed,
          destClosed := r.destClosed }
  | .exn _ :: _ => { forwarded := [], sourceClosed := true, destClosed := true }

/-- Sequentially acquire a connection for each host in turn, with every
transport reported active and every connect succeeding; returns the
final pool state. -/
def acquireSeq (st : PoolState) (hs : List SSHHost) : PoolState :=
  hs.foldl (fun s h => (get_connection s h (fun _ => true) (.ok ())).pool) st

/-! ### Concrete hosts, pools and inventories used in witness and
counterexample theorems -/

/-- A password host `u@h:22` with the default timeout 30. -/
def hostU : SSHHost :=
  { hostname := "h", username := "u", password := some "pw" }

/-- A distinct identity with the SAME pool key as `hostU` (only the
timeout differs). -/
def hostUslow : SSHHost := { hostU with timeout := 31 }

/-- A password host `u@v:22`. -/
def hostV : SSHHost :=
  { hostname := "v", username := "u", password := some "pw" }

/-- A password host `u@w:22`. -/
def hostW : SSHHost :=
  { hostname := "w", username := "u", password := some "pw" }

/-- A freshly constructed pool with `max_connections = m`. -/
def emptyPool (m : Nat) : PoolState :=
  { max_connections := m, connections := [], nextId := 0 }

/-- A pool already holding session `0` for `hostU`'s key. -/
def poolHU : PoolState :=
  { max_connections := 10, connections := [("u@h:22", 0)], nextId := 1 }

/-- Liveness oracle: every transport reports active. -/
def allActive : Nat → Bool := fun _ => true

/-- Liveness oracle: every transport reports inactive. -/
def allDead : Nat → Bool := fun _ => false

/-- Inventory holding only the label `web` (mapped to `hostU`). -/
def invW : String → Option SSHHost :=
  fun l => if l = "web" then some hostU else none

/-- Inventory holding the labels `web` and `db`. -/
def invW2 : String → Option SSHHost :=
  fun l => if l = "web" then some hostU else if l = "db" then some hostV else none

/-! ### Association-list (Python dict) lemmas -/

lemma dictGet_mem {l : List (String × Nat)} {k : String} {v : Nat}
    (h : dictGet l k = some v) : (k, v) ∈ l := by
  induction l with
  | nil => simp [dictGet] at h
  | cons p rest ih =>
    obtain ⟨k0, v0⟩ := p
    by_cases hk : k0 = k
    · subst hk
      simp [dictGet] at h
      simp [h]
    · simp [dictGet, hk] at h
      exact List.mem_cons_of_mem _ (ih h)

lemma dictGet_eq_none_iff {l : List (String × Nat)} {k : String} :
    dictGet l k = none ↔ k ∉ l.map Prod.fst := by
  induction l with
  | nil => simp [dictGet]
  | cons p rest ih =>
    obtain ⟨k0, v0⟩ := p
    by_cases hk : k0 = k
    · subst hk
      simp [dictGet]
    · simp [dictGet, hk, ih, Ne.symm hk]

lemma dictRemove_sublist (l : List (String × Nat)) (k : String) :
    (dictRemove l k).Sublist l := by
  induction l with
  | nil => simp [dictRemove]
  | cons p rest ih =>
    obtain ⟨k0, v0⟩ := p
    by_cases hk : k0 = k
    · simp [dictRemove, hk]
    · simpa [dictRemove, hk] using ih.cons₂ (k0, v0)

lemma mem_dictRemove_of_ne {l : List (String × Nat)} {k k' : String} {v : Nat}
    (hm : (k', v) ∈ l) (hne : k' ≠ k) : (k', v) ∈ dictRemove l k := by
  induction l with
  | nil => simp at hm
  | cons p rest ih =>
    obtain ⟨k0, v0⟩ := p
    by_cases hk : k0 = k
    · subst hk
      rcases List.mem_cons.mp hm with h | h
      · cases h
        exact absurd rfl hne
      · simpa [dictRemove] using h
    · rcases List.mem_cons.mp hm with h | h
      · simp [dictRemove, hk, h]
      · simp only [dictRemove, if_neg hk]
        exact List.mem_cons_of_mem _ (ih h)

lemma dictGet_dictRemove_self {l : List (String × Nat)} {k : String}
    (hnd : (l.map Prod.fst).Nodup) : dictGet (dictRemove l k) k = none := by
  induction l with
  | nil => simp [dictRemove, dictGet]
  | cons p rest ih =>
    obtain ⟨k0, v0⟩ := p
    simp only [List.map_cons, List.nodup_cons] at hnd
    by_cases hk : k0 = k
    · subst hk
      simp only [dictRemove, if_pos rfl]
      exact dictGet_eq_none_iff.mpr hnd.1
    · simp [dictRemove, hk, dictGet, ih hnd.2]

lemma dictGet_dictRemove_of_ne {l : List (String × Nat)} {k k' : String}
    (hne : k' ≠ k) : dictGet (dictRemove l k) k' = dictGet l k' := by
  induction l with
  | nil => simp [dictRemove]
  | cons p rest ih =>
    obtain ⟨k0, v0⟩ := p
    by_cases hk : k0 = k
    · subst hk
      simp [dictRemove, dictGet, Ne.symm hne]
    · simp [dictRemove, hk, dictGet, ih]

lemma dictGet_append_right {l : List (String × Nat)} {k : String} {v : Nat}
    (h : dictGet l k = none) : dictGet (l ++ [(k, v)]) k = some v := by
  induction l with
  | nil => simp [dictGet]
  | cons p rest ih =>
    obtain ⟨k0, v0⟩ := p
    by_cases hk : k0 = k
    · simp [dictGet, hk] at h
    · simp only [dictGet, if_neg hk] at h
      simpa [dictGet, hk] using ih h

lemma dictGet_append_of_ne {l : List (String × Nat)} {k k' : String} {v : Nat}
    (hne : k' ≠ k) : dictGet (l ++ [(k, v)]) k' = dictGet l k' := by
  induction l with
  | nil => simp [dictGet, Ne.symm hne]
  | cons p rest ih =>
    obtain ⟨k0, v0⟩ := p
    by_cases hk : k0 = k'
    · simp [dictGet, hk]
    · simp [dictGet, hk, ih]

lemma key_eq_of_mem_of_snd_nodup {l : List (String × Nat)} {k1 k2 : String} {s : Nat}
    (hnd : (l.map Prod.snd).Nodup) (h1 : (k1, s) ∈ l) (h2 : (k2, s) ∈ l) : k1 = k2 := by
  induction l with
  | nil => simp at h1
  | cons p rest ih =>
    obtain ⟨k0, v0⟩ := p
    simp only [List.map_cons, List.nodup_cons] at hnd
    rcases List.mem_cons.mp h1 with e1 | m1
    · rcases List.mem_cons.mp h2 with e2 | m2
      · cases e1
        cases e2
        rfl
      · cases e1
        exact absurd (List.mem_map_of_mem Prod.snd m2) hnd.1
    · rcases List.mem_cons.mp h2 with e2 | m2
      · cases e2
        exact absurd (List.mem_map_of_mem Prod.snd m1) hnd.1
      · exact ih hnd.2 m1 m2

/-! ### Pool lemmas: well-formedness preservation and session facts -/

lemma attemptConnect_WF {st : PoolState} {h : SSHHost} {cr : Except String Unit}
    (hWF : PoolWF st) (hmiss : dictGet st.connections (host_key h) = none) :
    PoolWF (attemptConnect st h cr).pool := by
  cases cr with
  | error e => exact hWF
  | ok u =>
    obtain ⟨hk, hs, hb⟩ := hWF
    refine ⟨?_, ?_, ?_⟩
    · simp only [attemptConnect, List.map_append, List.map_cons, List.map_nil]
      rw [List.nodup_append]
      refine ⟨hk, List.nodup_singleton _, ?_⟩
      intro a ha hb2
      simp only [List.mem_singleton] at hb2
      subst hb2
      exact dictGet_eq_none_iff.mp hmiss ha
    · simp only [attemptConnect, List.map_append, List.map_cons, List.map_nil]
      rw [List.nodup_append]
      refine ⟨hs, List.nodup_singleton _, ?_⟩
      intro a ha hb2
      simp only [List.mem_singleton] at hb2
      subst hb2
      obtain ⟨p, hp, hpe⟩ := List.mem_map.mp ha
      exact absurd (hpe ▸ hb p hp) (lt_irrefl _)
    · intro p hp
      simp only [attemptConnect, List.mem_append, List.mem_singleton] at hp
      rcases hp with hp | hp
      · exact Nat.lt_succ_of_lt (hb p hp)
      · subst hp
        exact Nat.lt_succ_self _

lemma dictRemove_WF {st : PoolState} (hWF : PoolWF st) (k : String) :
    PoolWF { st with connections := dictRemove st.connections k } := by
  obtain ⟨hk, hs, hb⟩ := hWF
  have hsub := dictRemove_sublist st.connections k
  exact ⟨(hsub.map Prod.fst).nodup hk, (hsub.map Prod.snd).nodup hs,
    fun p hp => hb p (hsub.subset hp)⟩

/-- Exhaustive description of the three control paths of
`get_connection`: pool miss, hit on an active session, hit on a dead
session (evict, then reconnect). -/
lemma get_connection_spec (st : PoolState) (h : SSHHost) (act : Nat → Bool)
    (cr : Except String Unit) :
    (dictGet st.connections (host_key h) = none ∧
      get_connection st h act cr = attemptConnect st h cr) ∨
    (∃ s, dictGet st.connections (host_key h) = some s ∧ act s = true ∧
      get_connection st h act cr =
        { result := .ok s, pool := st, call := none, closedCalls := [] }) ∨
    (∃ s, dictGet st.connections (host_key h) = some s ∧ act s = false ∧
      get_connection st h act cr =
        attemptConnect { st with connections := dictRemove st.connections (host_key h) }
          h cr) := by
  simp only [get_connection]
  cases hget : dictGet st.connections (host_key h) with
  | none => exact Or.inl ⟨rfl, rfl⟩
  | some conn =>
    by_cases hact : act conn
    · exact Or.inr (Or.inl ⟨conn, rfl, hact, by simp [hact]⟩)
    · refine Or.inr (Or.inr ⟨conn, rfl, ?_, by simp [hact]⟩)
      simpa using hact

lemma get_connection_WF {st : PoolState} {h : SSHHost} {act : Nat → Bool}
    {cr : Except String Unit} (hWF : PoolWF st) :
    PoolWF (get_connection st h act cr).pool := by
  rcases get_connection_spec st h act cr with ⟨hmiss, heq⟩ | ⟨s, _, _, heq⟩ |
    ⟨s, _, _, heq⟩ <;> rw [heq]
  · exact attemptConnect_WF hWF hmiss
  · exact hWF
  · exact attemptConnect_WF (dictRemove_WF hWF _) (dictGet_dictRemove_self hWF.1)

/-- A successful `get_connection` either returned a pooled session found
active under its key, or allocated the fresh session `st.nextId`. -/
lemma get_connection_ok_cases {st : PoolState} {h : SSHHost} {act : Nat → Bool}
    {cr : Except String Unit} {s : Nat}
    (hok : (get_connection st h act cr).result = .ok s) :
    (dictGet st.connections (host_key h) = some s ∧ act s = true ∧
      (get_connection st h act cr).pool = st) ∨
    s = st.nextId := by
  rcases get_connection_spec st h act cr with ⟨hmiss, heq⟩ | ⟨s0, hget, hact, heq⟩ |
    ⟨s0, hget, hact, heq⟩
  · rw [heq] at hok
    cases cr with
    | error e => simp [attemptConnect] at hok
    | ok u =>
      simp only [attemptConnect] at hok
      cases hok
      exact Or.inr rfl
  · rw [heq] at hok ⊢
    simp only at hok
    cases hok
    exact Or.inl ⟨hget, hact, rfl⟩
  · rw [heq] at hok
    cases cr with
    | error e => simp [attemptConnect] at hok
    | ok u =>
      simp only [attemptConnect] at hok
      cases hok
      exact Or.inr rfl

/-- A successful `get_connection` leaves its session pooled under the
host's key. -/
lemma get_connection_ok_mem {st : PoolState} {h : SSHHost} {act : Nat → Bool}
    {cr : Except String Unit} {s : Nat}
    (hok : (get_connection st h act cr).result = .ok s) :
    (host_key h, s) ∈ (get_connection st h act cr).pool.connections := by
  rcases get_connection_spec st h act cr with ⟨hmiss, heq⟩ | ⟨s0, hget, hact, heq⟩ |
    ⟨s0, hget, hact, heq⟩ <;> rw [heq] at hok ⊢
  · cases cr with
    | error e => simp [attemptConnect] at hok
    | ok u =>
      simp only [attemptConnect] at hok ⊢
      cases hok
      exact List.mem_append_right _ (List.mem_singleton.mpr rfl)
  · simp only at hok
    cases hok
    exact dictGet_mem hget
  · cases cr with
    | error e => simp [attemptConnect] at hok
    | ok u =>
      simp only [attemptConnect] at hok ⊢
      cases hok
      exact List.mem_append_right _ (List.mem_singleton.mpr rfl)

/-- The call `get_connection` never decreases the freshness counter. -/
lemma get_connection_nextId_le {st : PoolState} {h : SSHHost} {act : Nat → Bool}
    {cr : Except String Unit} :
    st.nextId ≤ (get_connection st h act cr).pool.nextId := by
  rcases get_connection_spec st h act cr with ⟨hmiss, heq⟩ | ⟨s0, hget, hact, heq⟩ |
    ⟨s0, hget, hact, heq⟩ <;> rw [heq] <;> cases cr <;> simp [attemptConnect]

/-- A call to `get_connection` for one host never disturbs another key's entry. -/
lemma get_connection_preserves_entry {st : PoolState} {h : SSHHost}
    {act : Nat → Bool} {cr : Except String Unit} {k : String} {v : Nat}
    (hm : (k, v) ∈ st.connections) (hne : k ≠ host_key h) :
    (k, v) ∈ (get_connection st h act cr).pool.connections := by
  rcases get_connection_spec st h act cr with ⟨hmiss, heq⟩ | ⟨s0, hget, hact, heq⟩ |
    ⟨s0, hget, hact, heq⟩ <;> rw [heq]
  · cases cr with
    | error e => exact hm
    | ok u => exact List.mem_append_left _ hm
  · exact hm
  · cases cr with
    | error e => exact mem_dictRemove_of_ne hm hne
    | ok u => exact List.mem_append_left _ (mem_dictRemove_of_ne hm hne)

/-! ### Dispatcher list lemmas -/

lemma nth?_mem {α : Type} {l : List α} {j : Nat} {a : α}
    (h : nth? l j = some a) : a ∈ l := by
  induction l generalizing j with
  | nil => simp [nth?] at h
  | cons b rest ih =>
    cases j with
    | zero =>
      simp [nth?] at h
      simp [h]
    | succ n =>
      simp only [nth?] at h
      exact List.mem_cons_of_mem _ (ih h)

lemma runPairs_length (command : String) (outcome : Nat → ExecOutcome)
    (elapsed : Nat → Nat) (i : Nat) (ps : List (String × SSHHost)) :
    (runPairs command outcome elapsed i ps).length = ps.length := by
  induction ps generalizing i with
  | nil => rfl
  | cons p rest ih => simp [runPairs, ih]

lemma runPairs_nth (command : String) (outcome : Nat → ExecOutcome)
    (elapsed : Nat → Nat) (i j : Nat) {ps : List (String × SSHHost)}
    {p : String × SSHHost} (h : nth? ps j = some p) :
    nth? (runPairs command outcome elapsed i ps) j =
      some (execute_command p.2 command (outcome (i + j)) (elapsed (i + j))) := by
  induction ps generalizing i j with
  | nil => simp [nth?] at h
  | cons q rest ih =>
    cases j with
    | zero =>
      simp [nth?] at h
      simp [runPairs, nth?, h]
    | succ n =>
      simp only [nth?] at h
      have hrec := ih (i + 1) n h
      simp only [runPairs, nth?]
      rw [hrec]
      have hidx : i + 1 + n = i + (n + 1) := by omega
      rw [hidx]

lemma presentPairs_append (inv : String → Option SSHHost) (a b : List String) :
    presentPairs inv (a ++ b) = presentPairs inv a ++ presentPairs inv b := by
  simp [presentPairs, List.filterMap_append]

lemma presentPairs_replicate {inv : String → Option SSHHost} {l : String}
    {h : SSHHost} (hl : inv l = some h) (k : Nat) :
    presentPairs inv (List.replicate k l) = List.replicate k (l, h) := by
  induction k with
  | zero => rfl
  | succ n ih =>
    unfold presentPairs at ih ⊢
    simp [List.replicate_succ, List.filterMap_cons, hl, ih]

lemma presentPairs_length (inv : String → Option SSHHost) (hosts : List String) :
    (presentPairs inv hosts).length =
      (hosts.filter (fun l => (inv l).isSome)).length := by
  induction hosts with
  | nil => rfl
  | cons l rest ih =>
    cases hl : inv l with
    | none => simpa [presentPairs, List.filter_cons, hl] using ih
    | some h => simpa [presentPairs, List.filter_cons, hl] using ih

lemma presentPairs_filter (inv : String → Option SSHHost) (hosts : List String) :
    presentPairs inv (hosts.filter (fun l => (inv l).isSome)) =
      presentPairs inv hosts := by
  induction hosts with
  | nil => rfl
  | cons l rest ih =>
    cases hl : inv l with
    | none => simpa [presentPairs, List.filter_cons, hl] using ih
    | some h => simpa [presentPairs, List.filter_cons, hl] using ih

lemma execute_parallel_length (inv : String → Option SSHHost)
    (hosts : List String) (command : String) (outcome : Nat → ExecOutcome)
    (elapsed : Nat → Nat) :
    (execute_parallel inv hosts command outcome elapsed).length =
      (hosts.filter (fun l => (inv l).isSome)).length := by
  rw [execute_parallel, runPairs_length, presentPairs_length]

/-! ### Tunnel loop lemma -/

lemma tunnelLoop_replicate_ok_error (n : Nat) (e : String)
    (post : List (Except String Unit)) :
    tunnelLoop 0 (List.replicate n (.ok ()) ++ .error e :: post) =
      (n, some e, false) := by
  suffices h : ∀ m i, tunnelLoop i (List.replicate m (.ok ()) ++ .error e :: post) =
      (i + m, some e, false) by
    simpa using h n 0
  intro m
  induction m with
  | zero => intro i; simp [tunnelLoop]
  | succ k ih =>
    intro i
    rw [List.replicate_succ, List.cons_append]
    show tunnelLoop (i + 1) (List.replicate k (.ok ()) ++ .error e :: post) =
      (i + (k + 1), some e, false)
    rw [ih]
    have hidx : i + 1 + k = i + (k + 1) := by omega
    rw [hidx]

/-- A relay direction whose script delivers some non-empty chunks and
then a terminator (empty read or exception) — the only possible shapes
once the transport under its channel is closed — copies exactly those
chunks, terminates, and closes both of its endpoints. -/
lemma forward_data_terminator (chunks : List String) (hne : ∀ c ∈ chunks, c ≠ "")
    (term : RecvEvent) (hterm : term = .recv "" ∨ ∃ m, term = .exn m)
    (rest : List RecvEvent) :
    forward_data (chunks.map RecvEvent.recv ++ term :: rest) =
      { forwarded := chunks, sourceClosed := true, destClosed := true } := by
  induction chunks with
  | nil =>
    rcases hterm with h | ⟨m, h⟩ <;> subst h <;> simp [forward_data]
  | cons c cs ih =>
    have hc : c ≠ "" := hne c (List.mem_cons_self c cs)
    have hrec := ih (fun x hx => hne x (List.mem_cons_of_mem c hx))
    simp only [List.map_cons, List.cons_append, forward_data, if_neg hc,
      List.append_eq, hrec]

/-! ### Claim theorems -/

/-- C4: `execute_command` reports a real remote exit status with
`success = (exit_code == 0)` and an empty error field when the command
ran (for `"exit 7"`: exit code 7, success false, no error), and on any
exception it reports exit code `-1`, `success = false`, empty stdout and
stderr, and the exception text in `error`. -/
theorem execute_command_exit_code_and_error_fields (hst : SSHHost)
    (command out err : String) (code : Int) (m : String) (t : Nat) :
    ((execute_command hst command (.ran out err code) t).exit_code = code ∧
      ((execute_command hst command (.ran out err code) t).success = true ↔ code = 0) ∧
      (execute_command hst command (.ran out err code) t).error = none) ∧
    ((execute_command hst "exit 7" (.ran out err 7) t).exit_code = 7 ∧
      (execute_command hst "exit 7" (.ran out err 7) t).success = false ∧
      (execute_command hst "exit 7" (.ran out err 7) t).error = none) ∧
    (execute_command hst command (.exn m) t =
      { host := hst.hostname, command := command, stdout := "", stderr := "",
        exit_code := -1, execution_time := t, success := false, error := some m }) := by
  refine ⟨⟨rfl, ?_, rfl⟩, ⟨rfl, ?_, rfl⟩, rfl⟩
  · simp [execute_command]
  · simp [execute_command]

/-- C5: the dispatcher produces exactly one `TaskResult` per
inventory-known entry of the host-label list (in any completion order),
and labels absent from the inventory are silently skipped: filtering
them out of the input changes nothing. -/
theorem execute_parallel_one_result_per_known_label
    (inv : String → Option SSHHost) (hosts : List String) (command : String)
    (outcome : Nat → ExecOutcome) (elapsed : Nat → Nat) (res : List TaskResult)
    (hres : res.Perm (execute_parallel inv hosts command outcome elapsed)) :
    res.length = (hosts.filter (fun l => (inv l).isSome)).length ∧
    execute_parallel inv hosts command outcome elapsed =
      execute_parallel inv (hosts.filter (fun l => (inv l).isSome))
        command outcome elapsed := by
  constructor
  · rw [hres.length_eq, execute_parallel_length]
  · rw [execute_parallel, execute_parallel, presentPairs_filter]

/-- Witness for C5 at a concrete inventory `{web, db}` and host list
`[web, ghost, db]`: two results, and the unknown label `ghost`
contributes nothing. -/
theorem execute_parallel_one_result_instance :
    (execute_parallel invW2 ["web", "ghost", "db"] "uptime"
        (fun _ => ExecOutcome.ran "" "" 0) (fun _ => 0)).length =
      (["web", "ghost", "db"].filter (fun l => (invW2 l).isSome)).length ∧
    execute_parallel invW2 ["web", "ghost", "db"] "uptime"
        (fun _ => ExecOutcome.ran "" "" 0) (fun _ => 0) =
      execute_parallel invW2 (["web", "ghost", "db"].filter (fun l => (invW2 l).isSome))
        "uptime" (fun _ => ExecOutcome.ran "" "" 0) (fun _ => 0) :=
  execute_parallel_one_result_per_known_label invW2 ["web", "ghost", "db"] "uptime"
    (fun _ => ExecOutcome.ran "" "" 0) (fun _ => 0) _ (List.Perm.refl _)

/-- C10: occurrences of a known label are not deduplicated: inserting
`k` copies of label `l` into the host list adds exactly `k` submissions
of `l`'s host and exactly `k` results, whatever the outcomes. -/
theorem execute_parallel_duplicates_not_deduplicated
    (inv : String → Option SSHHost) (l : String) (hst : SSHHost)
    (k : Nat) (pre post : List String) (command : String)
    (outcome outcome2 : Nat → ExecOutcome) (elapsed elapsed2 : Nat → Nat)
    (hl : inv l = some hst) :
    (execute_parallel inv (pre ++ List.replicate k l ++ post)
        command outcome elapsed).length =
      (execute_parallel inv (pre ++ post) command outcome2 elapsed2).length + k ∧
    presentPairs inv (List.replicate k l) = List.replicate k (l, hst) ∧
    (presentPairs inv (pre ++ List.replicate k l ++ post)).count (l, hst) =
      (presentPairs inv (pre ++ post)).count (l, hst) + k := by
  refine ⟨?_, presentPairs_replicate hl k, ?_⟩
  · rw [execute_parallel, execute_parallel, runPairs_length, runPairs_length,
      presentPairs_append, presentPairs_append, presentPairs_append,
      presentPairs_replicate hl]
    simp only [List.length_append, List.length_replicate]
    omega
  · rw [presentPairs_append, presentPairs_append, presentPairs_append,
      presentPairs_replicate hl]
    simp only [List.count_append, List.count_replicate_self]
    omega

/-- Witness for C10: the label `web` listed twice alongside an unknown
label yields two more results than without it, and two submissions of
`hostU`. -/
theorem execute_parallel_duplicates_instance :
    (execute_parallel invW ([] ++ List.replicate 2 "web" ++ ["ghost"]) "ls"
        (fun _ => ExecOutcome.ran "" "" 0) (fun _ => 0)).length =
      (execute_parallel invW ([] ++ ["ghost"]) "ls"
        (fun _ => ExecOutcome.ran "" "" 0) (fun _ => 0)).length + 2 ∧
    presentPairs invW (List.replicate 2 "web") = List.replicate 2 ("web", hostU) ∧
    (presentPairs invW ([] ++ List.replicate 2 "web" ++ ["ghost"])).count ("web", hostU) =
      (presentPairs invW ([] ++ ["ghost"])).count ("web", hostU) + 2 :=
  execute_parallel_duplicates_not_deduplicated invW "web" hostU 2 [] ["ghost"] "ls"
    (fun _ => ExecOutcome.ran "" "" 0) (fun _ => ExecOutcome.ran "" "" 0)
    (fun _ => 0) (fun _ => 0) (by decide)

/-- C9: `get_connection` never consults `max_connections` — its result,
the dict and the counter are unchanged by replacing that field — and a
pool constructed with `max_connections = 2` grows to 3 live sessions
after three distinct-key acquires. -/
theorem pool_ignores_max_connections (st : PoolState) (m : Nat) (hst : SSHHost)
    (act : Nat → Bool) (cr : Except String Unit) :
    ((get_connection { st with max_connections := m } hst act cr).result =
        (get_connection st hst act cr).result ∧
      (get_connection { st with max_connections := m } hst act cr).pool.connections =
        (get_connection st hst act cr).pool.connections ∧
      (get_connection { st with max_connections := m } hst act cr).pool.nextId =
        (get_connection st hst act cr).pool.nextId) ∧
    ((acquireSeq (emptyPool 2) [hostU, hostV, hostW]).connections.length = 3 ∧
      (emptyPool 2).max_connections = 2) := by
  constructor
  · simp only [get_connection]
    cases dictGet st.connections (host_key hst) with
    | none => cases cr <;> simp [attemptConnect]
    | some conn =>
      by_cases hact : act conn
      · simp [hact]
      · simp only [hact, Bool.false_eq_true, if_false]
        cases cr <;> simp [attemptConnect]
  · exact ⟨by decide, rfl⟩

/-- C1: if the `i`-th submitted unit of work fails with an exception,
the dispatcher still returns a full result list (one result per
submission, in any completion order) containing a `TaskResult` for that
host with `success = false` and the exception text in `error`, and every
sibling submission's result is still present; no exception escapes the
dispatcher (the model is a total function). -/
theorem dispatcher_isolates_host_failures
    (inv : String → Option SSHHost) (hosts : List String) (command : String)
    (outcome : Nat → ExecOutcome) (elapsed : Nat → Nat) (res : List TaskResult)
    (l : String) (hst : SSHHost) (i : Nat) (m : String)
    (hres : res.Perm (execute_parallel inv hosts command outcome elapsed))
    (hpair : nth? (presentPairs inv hosts) i = some (l, hst))
    (hfail : outcome i = .exn m) :
    res.length = (presentPairs inv hosts).length ∧
    (∃ r ∈ res, r.host = hst.hostname ∧ r.command = command ∧
      r.success = false ∧ r.error = some m) ∧
    (∀ j l2 h2, nth? (presentPairs inv hosts) j = some (l2, h2) →
      execute_command h2 command (outcome j) (elapsed j) ∈ res) := by
  refine ⟨?_, ?_, ?_⟩
  · rw [hres.length_eq, execute_parallel, runPairs_length]
  · have hn := runPairs_nth command outcome elapsed 0 i hpair
    simp only [Nat.zero_add] at hn
    have hmem : execute_command hst command (outcome i) (elapsed i) ∈
        execute_parallel inv hosts command outcome elapsed := nth?_mem hn
    refine ⟨_, hres.mem_iff.mpr hmem, ?_, ?_, ?_, ?_⟩ <;>
      simp [execute_command, hfail]
  · intro j l2 h2 hj
    have hn := runPairs_nth command outcome elapsed 0 j hj
    simp only [Nat.zero_add] at hn
    exact hres.mem_iff.mpr (nth?_mem hn)

/-- Witness for C1: one known label whose unit of work raises
`"boom"`; the dispatcher still returns the full-length result list and
it contains the failed host's `TaskResult` with the error text. -/
theorem dispatcher_isolates_host_failures_instance :
    (execute_parallel invW ["web"] "ls" (fun _ => ExecOutcome.exn "boom")
        (fun _ => 0)).length = (presentPairs invW ["web"]).length ∧
    (∃ r ∈ execute_parallel invW ["web"] "ls" (fun _ => ExecOutcome.exn "boom")
        (fun _ => 0),
      r.host = hostU.hostname ∧ r.command = "ls" ∧
      r.success = false ∧ r.error = some "boom") := by
  have h := dispatcher_isolates_host_failures invW ["web"] "ls"
    (fun _ => ExecOutcome.exn "boom") (fun _ => 0)
    (execute_parallel invW ["web"] "ls" (fun _ => ExecOutcome.exn "boom") (fun _ => 0))
    "web" hostU 0 "boom" (List.Perm.refl _) (by decide) rfl
  exact ⟨h.1, h.2.1⟩

/-- C2 counterexample: `hostU` and `hostUslow` are distinct identities
(they differ in `timeout`) but share the pool key `u@h:22`, so after
acquiring a session for `hostU`, acquiring one for `hostUslow` returns
the VERY SAME session `0` — refuting "for any two distinct identities
the pool returns distinct sessions". -/
theorem pool_distinct_identities_can_share_session :
    hostU ≠ hostUslow ∧
    (get_connection (emptyPool 10) hostU allActive (.ok ())).result = .ok 0 ∧
    (get_connection (get_connection (emptyPool 10) hostU allActive (.ok ())).pool
        hostUslow allActive (.ok ())).result = .ok 0 := by
  refine ⟨by decide, by decide, by decide⟩

/-- C2 amended: while a pooled transport reports active, repeated
`get_connection` calls for that identity return the same underlying
session (and leave the pool untouched); and any two acquires whose
identities have DISTINCT pool keys (`username@hostname:port`) return
distinct sessions.  (Identities that are distinct but share the pool
key share one session, see the counterexample.) -/
theorem pool_reuse_and_distinct_keys_distinct_sessions :
    (∀ (st : PoolState) (hst : SSHHost) (act : Nat → Bool)
        (cr : Except String Unit) (s : Nat),
      dictGet st.connections (host_key hst) = some s → act s = true →
      (get_connection st hst act cr).result = .ok s ∧
      (get_connection st hst act cr).pool = st ∧
      (get_connection (get_connection st hst act cr).pool hst act cr).result = .ok s) ∧
    (∀ (st : PoolState) (A B : SSHHost) (act1 act2 : Nat → Bool)
        (cr1 cr2 : Except String Unit) (sA sB : Nat),
      PoolWF st → host_key A ≠ host_key B →
      (get_connection st A act1 cr1).result = .ok sA →
      (get_connection (get_connection st A act1 cr1).pool B act2 cr2).result = .ok sB →
      sA ≠ sB) := by
  constructor
  · intro st hst act cr s hget hact
    have h1 : get_connection st hst act cr =
        { result := .ok s, pool := st, call := none, closedCalls := [] } := by
      simp only [get_connection, hget, hact, if_true]
    rw [h1]
    exact ⟨rfl, rfl, by simp only [get_connection, hget, hact, if_true]⟩
  · intro st A B act1 act2 cr1 cr2 sA sB hWF hkeys h1 h2
    have hWF1 : PoolWF (get_connection st A act1 cr1).pool := get_connection_WF hWF
    have hmemA : (host_key A, sA) ∈ (get_connection st A act1 cr1).pool.connections :=
      get_connection_ok_mem h1
    rcases get_connection_ok_cases h2 with ⟨hgetB, hactB, _⟩ | hfresh
    · have hmemB : (host_key B, sB) ∈ (get_connection st A act1 cr1).pool.connections :=
        dictGet_mem hgetB
      intro hEq
      subst hEq
      exact hkeys (key_eq_of_mem_of_snd_nodup hWF1.2.1 hmemA hmemB)
    · have hlt : sA < (get_connection st A act1 cr1).pool.nextId := hWF1.2.2 _ hmemA
      omega

/-- Witness for C2's amended theorem: a hit on active session `0`
returns `0` and leaves the pool unchanged (twice in a row), and two
acquires for the distinct-key hosts `u@h:22` and `u@v:22` return the
distinct sessions `0` and `1`. -/
theorem pool_reuse_distinct_keys_instance :
    ((get_connection poolHU hostU allActive (.ok ())).result = .ok 0 ∧
      (get_connection poolHU hostU allActive (.ok ())).pool = poolHU ∧
      (get_connection (get_connection poolHU hostU allActive (.ok ())).pool
          hostU allActive (.ok ())).result = .ok 0) ∧
    (0 : Nat) ≠ 1 :=
  ⟨pool_reuse_and_distinct_keys_distinct_sessions.1 poolHU hostU allActive (.ok ()) 0
      (by decide) rfl,
    pool_reuse_and_distinct_keys_distinct_sessions.2 (emptyPool 10) hostU hostV
      allActive allActive (.ok ()) (.ok ()) 0 1 ⟨by decide, by decide, by decide⟩
      (by decide) (by decide) (by decide)⟩

/-- C3 counterexample: the pool holds dead session `0` for `hostU`; the
next acquire evicts it and returns fresh session `1`, but invokes NO
`.close()` call — `closedCalls = []` — refuting "closes the old
session".  (The only close site in the pool is `close_all`.) -/
theorem pool_dead_session_not_closed :
    (get_connection poolHU hostU allDead (.ok ())).closedCalls = [] ∧
    (get_connection poolHU hostU allDead (.ok ())).result = .ok 1 ∧
    dictGet (get_connection poolHU hostU allDead (.ok ())).pool.connections
      (host_key hostU) = some 1 ∧
    (close_all poolHU).2 = [0] := by
  refine ⟨by decide, by decide, by decide, by decide⟩

/-- C3 amended: when the pooled session for an identity reports
inactive, the next successful acquire removes it from the pool (WITHOUT
closing it) and returns a newly created session, never the old one. -/
theorem pool_dead_session_replaced_without_close
    (st : PoolState) (hst : SSHHost) (act : Nat → Bool) (s : Nat)
    (hWF : PoolWF st)
    (hget : dictGet st.connections (host_key hst) = some s)
    (hdead : act s = false) :
    (get_connection st hst act (.ok ())).result = .ok st.nextId ∧
    st.nextId ≠ s ∧
    dictGet (get_connection st hst act (.ok ())).pool.connections (host_key hst) =
      some st.nextId ∧
    (get_connection st hst act (.ok ())).closedCalls = [] := by
  have heq : get_connection st hst act (.ok ()) =
      attemptConnect { st with connections := dictRemove st.connections (host_key hst) }
        hst (.ok ()) := by
    simp only [get_connection, hget, hdead, Bool.false_eq_true, if_false]
  rw [heq]
  refine ⟨rfl, ?_, ?_, rfl⟩
  · have hlt := hWF.2.2 _ (dictGet_mem hget)
    omega
  · exact dictGet_append_right (dictGet_dictRemove_self hWF.1)

/-- Witness for C3's amended theorem at the concrete dead-session
pool. -/
theorem pool_dead_session_replaced_instance :
    (get_connection poolHU hostU allDead (.ok ())).result = .ok poolHU.nextId ∧
    poolHU.nextId ≠ 0 ∧
    dictGet (get_connection poolHU hostU allDead (.ok ())).pool.connections
      (host_key hostU) = some poolHU.nextId ∧
    (get_connection poolHU hostU allDead (.ok ())).closedCalls = [] :=
  pool_dead_session_replaced_without_close poolHU hostU allDead 0
    ⟨by decide, by decide, by decide⟩ (by decide) rfl

/-- C7 counterexample: with a dead pooled session for the identity, a
failing connect propagates the error WITHOUT inserting, but the
key→session mapping is NOT unchanged: the dead entry was already
evicted before the connect attempt. -/
theorem pool_failed_connect_changes_mapping :
    (get_connection poolHU hostU allDead (.error "boom")).result = .err "boom" ∧
    (get_connection poolHU hostU allDead (.error "boom")).pool.connections ≠
      poolHU.connections := by
  refine ⟨by decide, by decide⟩

/-- C7 amended: when the connect attempt inside `get_connection` fails,
the exception is propagated, no entry for the identity is inserted
(afterwards the key maps to nothing), every other identity's entry is
untouched — and the mapping is completely unchanged exactly when there
was no (dead) pre-existing entry for the identity to evict. -/
theorem pool_failed_connect_no_insert
    (st : PoolState) (hst : SSHHost) (act : Nat → Bool) (e : String)
    (hWF : PoolWF st)
    (hnohit : ∀ s, dictGet st.connections (host_key hst) = some s → act s = false) :
    (get_connection st hst act (.error e)).result = .err e ∧
    dictGet (get_connection st hst act (.error e)).pool.connections
      (host_key hst) = none ∧
    (∀ k, k ≠ host_key hst →
      dictGet (get_connection st hst act (.error e)).pool.connections k =
        dictGet st.connections k) ∧
    (dictGet st.connections (host_key hst) = none →
      (get_connection st hst act (.error e)).pool = st) := by
  cases hget : dictGet st.connections (host_key hst) with
  | none =>
    have heq : get_connection st hst act (.error e) =
        attemptConnect st hst (.error e) := by
      simp only [get_connection, hget]
    rw [heq]
    exact ⟨rfl, hget, fun k _ => rfl, fun _ => rfl⟩
  | some s =>
    have hdead := hnohit s hget
    have heq : get_connection st hst act (.error e) =
        attemptConnect { st with connections := dictRemove st.connections (host_key hst) }
          hst (.error e) := by
      simp only [get_connection, hget, hdead, Bool.false_eq_true, if_false]
    rw [heq]
    refine ⟨rfl, dictGet_dictRemove_self hWF.1,
      fun k hk => dictGet_dictRemove_of_ne hk, fun hnone => ?_⟩
    exact Option.noConfusion hnone

/-- Witness for C7's amended theorem at the concrete dead-session
pool with a failing connect. -/
theorem pool_failed_connect_no_insert_instance :
    (get_connection poolHU hostU allDead (.error "boom")).result = .err "boom" ∧
    dictGet (get_connection poolHU hostU allDead (.error "boom")).pool.connections
      (host_key hostU) = none ∧
    (∀ k, k ≠ host_key hostU →
      dictGet (get_connection poolHU hostU allDead (.error "boom")).pool.connections k =
        dictGet poolHU.connections k) ∧
    (dictGet poolHU.connections (host_key hostU) = none →
      (get_connection poolHU hostU allDead (.error "boom")).pool = poolHU) :=
  pool_failed_connect_no_insert poolHU hostU allDead "boom"
    ⟨by decide, by decide, by decide⟩ (fun _ _ => rfl)

/-- C6 counterexample: with the tunnel established, the first accepted
connection relays fine but the second one's `open_channel` raises; the
worker then stops listening (the accept loop is gone) and never closes
the failed connection's client socket — refuting "closes that
connection's local socket ... the listener keeps accepting". -/
theorem tunnel_channel_error_stops_listener :
    (tunnel_worker hostU (.ok ()) [.ok (), .error "boom"]).listening = false ∧
    (tunnel_worker hostU (.ok ()) [.ok (), .error "boom"]).clientClosedByWorker = [] ∧
    (tunnel_worker hostU (.ok ()) [.ok (), .error "boom"]).relaysSpawned = 1 := by
  refine ⟨by decide, by decide, by decide⟩

/-- C6 amended: an error establishing the remote channel for an
accepted connection escapes the `while True` loop: it is logged, the
accept loop terminates (no further connections are accepted), the
worker closes no client socket, and the worker's `finally` closes the
SSH client.  That close takes down the transport carrying the `n`
already-spawned relay pairs' channels, so each of their relay loops
reaches an empty read or an exception, terminates, and closes both of
its endpoints: the error path tears down the earlier relays too, it
does not keep them running. -/
theorem tunnel_channel_error_terminates_worker
    (hst : SSHHost) (n : Nat) (e : String) (post : List (Except String Unit))
    (chunks : List String) (term : RecvEvent) (rest : List RecvEvent)
    (hne : ∀ c ∈ chunks, c ≠ "")
    (hterm : term = .recv "" ∨ ∃ m, term = .exn m) :
    tunnel_worker hst (.ok ()) (List.replicate n (.ok ()) ++ .error e :: post) =
      { connectCall := tunnelConnectCall hst, relaysSpawned := n,
        clientClosedByWorker := [], loggedError := some e,
        sshClosed := true, listening := false } ∧
    forward_data (chunks.map RecvEvent.recv ++ term :: rest) =
      { forwarded := chunks, sourceClosed := true, destClosed := true } :=
  ⟨by simp only [tunnel_worker, tunnelLoop_replicate_ok_error, Option.isSome_some],
    forward_data_terminator chunks hne term hterm rest⟩

/-- Witness for C6's amended theorem: one relay spawned, then a channel
error kills the worker with the error logged and the SSH client closed;
a relay whose script delivers `PING` and then the end-of-stream a
closed transport forces terminates with both endpoints closed. -/
theorem tunnel_channel_error_terminates_instance :
    tunnel_worker hostU (.ok ()) (List.replicate 1 (.ok ()) ++ .error "boom" :: []) =
      { connectCall := tunnelConnectCall hostU, relaysSpawned := 1,
        clientClosedByWorker := [], loggedError := some "boom",
        sshClosed := true, listening := false } ∧
    forward_data (["PING"].map RecvEvent.recv ++ .recv "" :: []) =
      { forwarded := ["PING"], sourceClosed := true, destClosed := true } :=
  tunnel_channel_error_terminates_worker hostU 1 "boom" [] ["PING"] (.recv "") []
    (by decide) (Or.inl rfl)

/-- C8 counterexample: `hostU` has a configured timeout (30), but the
tunnel worker's connect call passes NO timeout at all — refuting "the
identity's configured timeout is applied to the connect call" for the
tunnel worker. -/
theorem tunnel_connect_ignores_timeout :
    (tunnel_worker hostU (.ok ()) []).connectCall.timeout ≠ some hostU.timeout ∧
    (tunnel_worker hostU (.ok ()) []).connectCall.timeout = none := by
  refine ⟨by decide, by decide⟩

/-- C8 amended: every connect call the pool's `get_connection` actually
makes carries `timeout = host.timeout`, but the tunnel worker's connect
call never passes a timeout (the library default applies instead). -/
theorem connect_timeout_pool_yes_tunnel_no
    (st : PoolState) (hst : SSHHost) (act : Nat → Bool) (cr : Except String Unit)
    (c : ConnectCall)
    (hc : (get_connection st hst act cr).call = some c) :
    c.timeout = some hst.timeout ∧
    (∀ (connectResult : Except String Unit) (chans : List (Except String Unit)),
      (tunnel_worker hst connectResult chans).connectCall.timeout = none) := by
  constructor
  · have hpc : c = poolConnectCall hst := by
      rcases get_connection_spec st hst act cr with ⟨_, heq⟩ | ⟨s0, _, _, heq⟩ |
        ⟨s0, _, _, heq⟩ <;> rw [heq] at hc
      · cases cr <;> exact (Option.some.inj hc).symm
      · exact Option.noConfusion hc
      · cases cr <;> exact (Option.some.inj hc).symm
    rw [hpc]
    unfold poolConnectCall
    by_cases hkf : pyTruthy hst.key_filename <;> simp [hkf]
  · intro connectResult chans
    cases connectResult <;> simp [tunnel_worker, tunnelConnectCall]

/-- Witness for C8's amended theorem: a miss-path acquire on an empty
pool makes a connect call carrying `hostU`'s timeout, while the tunnel
worker's connect call for the same host carries none. -/
theorem connect_timeout_instance :
    (poolConnectCall hostU).timeout = some hostU.timeout ∧
    (tunnel_worker hostU (.ok ()) []).connectCall.timeout = none := by
  have h := connect_timeout_pool_yes_tunnel_no (emptyPool 10) hostU allActive
    (.ok ()) (poolConnectCall hostU) rfl
  exact ⟨h.1, h.2 (.ok ()) []⟩

end UthopiaSSH
